import Mathlib

/-!
Verification of the polarimetric differential-calibration core of the
`vampires_dpp` data-processing package against its design specification.

The numpy arrays of the source act pointwise (elementwise broadcasting), so a
frame is modelled by its real value at one arbitrary pixel; every combiner
identity proved here therefore holds at every pixel.  Floating-point
arithmetic is modelled by exact real arithmetic, matching the spec's
"exactly (within floating tolerance)" reading.
-/

namespace VampiresDPP

/-- Half-wave-plate retarder angle: `a0 ↦ 0°`, `a22 ↦ 22.5°`, `a45 ↦ 45°`,
`a67 ↦ 67.5°` (header field `RET-ANG1`). -/
inductive Ang
  | a0
  | a22
  | a45
  | a67
  deriving DecidableEq

/-- Modulator (FLC) state (header field `U_FLC`): `A` or `B`. -/
inductive FLC
  | A
  | B
  deriving DecidableEq

/-- Camera id (header field `U_CAMERA`): `c1 ↦ 1`, `c2 ↦ 2`. -/
inductive Cam
  | c1
  | c2
  deriving DecidableEq

/-- Triple-difference frame key `(RET-ANG1, U_FLC, U_CAMERA)` (16 keys). -/
abbrev Key3 := Ang × FLC × Cam

/-- Double-difference frame key `(RET-ANG1, U_CAMERA)` (8 keys). -/
abbrev Key2 := Ang × Cam

noncomputable section

/-- Translation of `triple_diff_dict` (`pdi/processing.py` lines 175-218).
A complete triple-difference FrameSet is a total map `Key3 → ℝ` (one pixel of
each keyed frame); the result is the `(I, Q, U)` triple. -/
def triple_diff_dict (f : Key3 → ℝ) : ℝ × ℝ × ℝ :=
  -- single diff (cams)
  let pQ0 := 0.5 * (f (.a0, .A, .c1) - f (.a0, .A, .c2))
  let pIQ0 := 0.5 * (f (.a0, .A, .c1) + f (.a0, .A, .c2))
  let pQ1 := 0.5 * (f (.a0, .B, .c1) - f (.a0, .B, .c2))
  let pIQ1 := 0.5 * (f (.a0, .B, .c1) + f (.a0, .B, .c2))
  let mQ0 := 0.5 * (f (.a45, .A, .c1) - f (.a45, .A, .c2))
  let mIQ0 := 0.5 * (f (.a45, .A, .c1) + f (.a45, .A, .c2))
  let mQ1 := 0.5 * (f (.a45, .B, .c1) - f (.a45, .B, .c2))
  let mIQ1 := 0.5 * (f (.a45, .B, .c1) + f (.a45, .B, .c2))
  let pU0 := 0.5 * (f (.a22, .A, .c1) - f (.a22, .A, .c2))
  let pIU0 := 0.5 * (f (.a22, .A, .c1) + f (.a22, .A, .c2))
  let pU1 := 0.5 * (f (.a22, .B, .c1) - f (.a22, .B, .c2))
  let pIU1 := 0.5 * (f (.a22, .B, .c1) + f (.a22, .B, .c2))
  let mU0 := 0.5 * (f (.a67, .A, .c1) - f (.a67, .A, .c2))
  let mIU0 := 0.5 * (f (.a67, .A, .c1) + f (.a67, .A, .c2))
  let mU1 := 0.5 * (f (.a67, .B, .c1) - f (.a67, .B, .c2))
  let mIU1 := 0.5 * (f (.a67, .B, .c1) + f (.a67, .B, .c2))
  -- double difference (FLC1 - FLC2)
  let pQ := 0.5 * (pQ0 - pQ1)
  let pIQ := 0.5 * (pIQ0 + pIQ1)
  let mQ := 0.5 * (mQ0 - mQ1)
  let mIQ := 0.5 * (mIQ0 + mIQ1)
  let pU := 0.5 * (pU0 - pU1)
  let pIU := 0.5 * (pIU0 + pIU1)
  let mU := 0.5 * (mU0 - mU1)
  let mIU := 0.5 * (mIU0 + mIU1)
  -- triple difference (HWP1 - HWP2)
  let Q := 0.5 * (pQ - mQ)
  let IQ := 0.5 * (pIQ + mIQ)
  let U := 0.5 * (pU - mU)
  let IU := 0.5 * (pIU + mIU)
  let I := 0.5 * (IQ + IU)
  (I, Q, U)

/-- Translation of `double_diff_dict` (`pdi/processing.py` lines 221-243). -/
def double_diff_dict (f : Key2 → ℝ) : ℝ × ℝ × ℝ :=
  -- single diff (cams)
  let pQ := 0.5 * (f (.a0, .c1) - f (.a0, .c2))
  let pIQ := 0.5 * (f (.a0, .c1) + f (.a0, .c2))
  let mQ := 0.5 * (f (.a45, .c1) - f (.a45, .c2))
  let mIQ := 0.5 * (f (.a45, .c1) + f (.a45, .c2))
  let pU := 0.5 * (f (.a22, .c1) - f (.a22, .c2))
  let pIU := 0.5 * (f (.a22, .c1) + f (.a22, .c2))
  let mU := 0.5 * (f (.a67, .c1) - f (.a67, .c2))
  let mIU := 0.5 * (f (.a67, .c1) + f (.a67, .c2))
  -- double difference (HWP1 - HWP2)
  let Q := 0.5 * (pQ - mQ)
  let IQ := 0.5 * (pIQ + mIQ)
  let U := 0.5 * (pU - mU)
  let IU := 0.5 * (pIU + mIU)
  let I := 0.5 * (IQ + IU)
  (I, Q, U)

/-- Closed-form nested-averaging formula of spec section 4.2, written from the
spec's words: per-angle camera half-differences `pQ`/`mQ` and half-sums
`pIQ`/`mIQ` for modulator states A and B, half-differences across the
modulator states, half-differences across the angle pairs `(0, 45)` for `Q`
and `(22.5, 67.5)` for `U`, with `IQ`/`IU` the corresponding half-sums and
`I` the half-sum of `IQ` and `IU`. -/
def specTripleDiff (f : Key3 → ℝ) : ℝ × ℝ × ℝ :=
  let pQ : Ang → ℝ := fun a => 0.5 * (f (a, .A, .c1) - f (a, .A, .c2))
  let pIQ : Ang → ℝ := fun a => 0.5 * (f (a, .A, .c1) + f (a, .A, .c2))
  let mQ : Ang → ℝ := fun a => 0.5 * (f (a, .B, .c1) - f (a, .B, .c2))
  let mIQ : Ang → ℝ := fun a => 0.5 * (f (a, .B, .c1) + f (a, .B, .c2))
  let Q0 := 0.5 * (pQ .a0 - mQ .a0)
  let IQ0 := 0.5 * (pIQ .a0 + mIQ .a0)
  let Q1 := 0.5 * (pQ .a45 - mQ .a45)
  let IQ1 := 0.5 * (pIQ .a45 + mIQ .a45)
  let Q := 0.5 * (Q0 - Q1)
  let IQ := 0.5 * (IQ0 + IQ1)
  let U0 := 0.5 * (pQ .a22 - mQ .a22)
  let IU0 := 0.5 * (pIQ .a22 + mIQ .a22)
  let U1 := 0.5 * (pQ .a67 - mQ .a67)
  let IU1 := 0.5 * (pIQ .a67 + mIQ .a67)
  let U := 0.5 * (U0 - U1)
  let IU := 0.5 * (IU0 + IU1)
  let I := 0.5 * (IQ + IU)
  (I, Q, U)

/-- Model of `np.hypot`: the quadrature sum. -/
def hypot (x y : ℝ) : ℝ := Real.sqrt (x ^ 2 + y ^ 2)

/-- First three entries of one diffed Mueller I-row (`mmQ[0]`, `mmQ[1]`,
`mmQ[2]` in `make_stokes_image`); entries past index 2 are never read by the
correction step. -/
structure MRow where
  e0 : ℝ
  e1 : ℝ
  e2 : ℝ

/-- Model of `np.linalg.lstsq` on the square system `[[a, b], [c, d]] · s =
(x, y)`: for an invertible matrix the least-squares solution is the unique
exact solution, given by Cramer's rule.  (A singular matrix is the spec's
non-fatal numeric-degeneracy case and is excluded by hypothesis where this
model is used.) -/
def lstsq2 (a b c d x y : ℝ) : ℝ × ℝ :=
  ((d * x - b * y) / (a * d - b * c), (a * y - c * x) / (a * d - b * c))

/-- Mueller-matrix correction step of `make_stokes_image`
(`pdi/processing.py` lines 374-393), per pixel: IP removal
`Q -= mmQ[0]*I`, `U -= mmU[0]*I`, error propagation
`Q_err = hypot(I_err, mmQ[0]*I_err)` (same for U), then the crosstalk solve
`np.linalg.lstsq(Marr.T, Sarr)` with `Marr = [[mmQ[1], mmQ[2]], [mmU[1],
mmU[2]]]` — so the coefficient matrix actually solved against is the
transpose `Marr.T = [[mmQ[1], mmU[1]], [mmQ[2], mmU[2]]]`.
Returns `((Q'', U''), (Q_err, U_err))`. -/
def mmCorrectStep (I Q U Ierr : ℝ) (mQ mU : MRow) : (ℝ × ℝ) × (ℝ × ℝ) :=
  let Q1 := Q - mQ.e0 * I
  let U1 := U - mU.e0 * I
  let Qerr := hypot Ierr (mQ.e0 * Ierr)
  let Uerr := hypot Ierr (mU.e0 * Ierr)
  let res := lstsq2 mQ.e1 mU.e1 mQ.e2 mU.e2 Q1 U1
  ((res.1, res.2), (Qerr, Uerr))

/-- Model of `np.arctan2 y x`: the argument of the complex number `x + i·y`
(range `(-π, π]`, the atan2 convention). -/
def arctan2 (y x : ℝ) : ℝ := Complex.arg ⟨x, y⟩

/-- Output planes of `radial_stokes`: `(Qphi, Uphi, Qphi_err, Uphi_err)`. -/
structure RadialOut where
  qphi : ℝ
  uphi : ℝ
  qphiErr : ℝ
  uphiErr : ℝ

/-- Translation of `radial_stokes` (`pdi/utils.py` lines 64-97) at one pixel;
`θ` is the pixel's azimuthal angle about the frame center (supplied by the
external `frame_angles`), `φ` the radial offset angle. -/
def radial_stokes (Q U Qerr Uerr θ φ : ℝ) : RadialOut :=
  let cos2t := Real.cos (2 * (θ + φ))
  let sin2t := Real.sin (2 * (θ + φ))
  { qphi := -cos2t * Q - sin2t * U
    uphi := sin2t * Q - cos2t * U
    qphiErr := hypot (cos2t * Qerr) (sin2t * Uerr)
    uphiErr := hypot (sin2t * Qerr) (cos2t * Uerr) }

/-- Translation of `rotate_stokes` (`pdi/utils.py` lines 100-106) at one
pixel of the `(I, Q, U)` planes: planes 1 and 2 are rotated, plane 0 is
copied unchanged. -/
def rotate_stokes (s : ℝ × ℝ × ℝ) (θ : ℝ) : ℝ × ℝ × ℝ :=
  let sin2ts := Real.sin (2 * θ)
  let cos2ts := Real.cos (2 * θ)
  (s.1, s.2.1 * cos2ts - s.2.2 * sin2ts, s.2.1 * sin2ts + s.2.2 * cos2ts)

/-- One plane stack of `stokes_products`: `(I, Q, U, Qphi, Uphi, PI, AoLP)`
(`lpi` is the polarized intensity `PI`). -/
structure SProd where
  si : ℝ
  sq : ℝ
  su : ℝ
  qphi : ℝ
  uphi : ℝ
  lpi : ℝ
  aolp : ℝ

/-- Translation of `stokes_products` (`pdi/utils.py` lines 142-154) at one
pixel, with `stokes_frame = (I, Q, U)` and `stokes_err = (Ierr, Qerr, Uerr)`.
Returns the data stack and the error stack. -/
def stokes_products (I Q U Ierr Qerr Uerr θ φ : ℝ) : SProd × SProd :=
  let pi := hypot U Q
  let aolp := arctan2 U Q
  let r := radial_stokes Q U Qerr Uerr θ φ
  let pi_err := hypot (U * Uerr) (Q * Qerr) / |pi|
  let aolp_err := hypot (Q * Uerr) (U * Qerr) / pi ^ 2
  (⟨I, Q, U, r.qphi, r.uphi, pi, aolp⟩,
    ⟨Ierr, Qerr, Uerr, r.qphiErr, r.uphiErr, pi_err, aolp_err⟩)

/-- Product-synthesizer formulas of spec section 4.4, written from the
spec's words: `Qφ = -Q·cos(2(θ+φ)) - U·sin(2(θ+φ))`,
`Uφ = Q·sin(2(θ+φ)) - U·cos(2(θ+φ))`, `PI = hypot(Q, U)`,
`AoLP = atan2(U, Q)` (no 1/2 factor),
`PI_err = hypot(Q·Q_err, U·U_err)/|PI|`,
`AoLP_err = hypot(Q·U_err, U·Q_err)/PI²`, and `Qφ_err`, `Uφ_err` the
quadrature combinations of the cos- and sin-weighted error terms. -/
def specStokesProducts (I Q U Ierr Qerr Uerr θ φ : ℝ) : SProd × SProd :=
  let cos2t := Real.cos (2 * (θ + φ))
  let sin2t := Real.sin (2 * (θ + φ))
  let Qphi := -Q * cos2t - U * sin2t
  let Uphi := Q * sin2t - U * cos2t
  let PI := hypot Q U
  let AoLP := arctan2 U Q
  let PIerr := hypot (Q * Qerr) (U * Uerr) / |PI|
  let AoLPerr := hypot (Q * Uerr) (U * Qerr) / PI ^ 2
  let Qphierr := hypot (cos2t * Qerr) (sin2t * Uerr)
  let Uphierr := hypot (sin2t * Qerr) (cos2t * Uerr)
  (⟨I, Q, U, Qphi, Uphi, PI, AoLP⟩,
    ⟨Ierr, Qerr, Uerr, Qphierr, Uphierr, PIerr, AoLPerr⟩)

/-- Error-map combination of `polarization_calibration_triplediff` and
`polarization_calibration_doublediff` (`pdi/processing.py` lines 74-76 and
129-131) at one pixel:
`stokes_err = sqrt(nanmean(power(cube_errs, 2), axis=0) / len(cube_errs))`,
where `cube_errs` holds one error frame per file of the set passed in for
the cycle (real-valued pixels carry no NaN, so `nanmean` is the mean). -/
def combineErrMap (errs : List ℝ) : ℝ :=
  Real.sqrt (((errs.map fun e => e ^ 2).sum / errs.length) / errs.length)

end

/-- The 16 triple-difference keys,
`itertools.product((0, 45, 22.5, 67.5), ("A", "B"), (1, 2))`
(`TRIPLEDIFF_SETS`; the Python `set` is unordered, and no result below
depends on the order). -/
def tripleKeys : List Key3 :=
  [(.a0, .A, .c1), (.a0, .A, .c2), (.a0, .B, .c1), (.a0, .B, .c2),
   (.a45, .A, .c1), (.a45, .A, .c2), (.a45, .B, .c1), (.a45, .B, .c2),
   (.a22, .A, .c1), (.a22, .A, .c2), (.a22, .B, .c1), (.a22, .B, .c2),
   (.a67, .A, .c1), (.a67, .A, .c2), (.a67, .B, .c1), (.a67, .B, .c2)]

/-- The 8 double-difference keys,
`itertools.product((0, 45, 22.5, 67.5), (1, 2))` (`DOUBLEDIFF_SETS`). -/
def doubleKeys : List Key2 :=
  [(.a0, .c1), (.a0, .c2), (.a45, .c1), (.a45, .c2),
   (.a22, .c1), (.a22, .c2), (.a67, .c1), (.a67, .c2)]

noncomputable section

/-- Translation of `instpol_correct` (`pdi/utils.py` lines 42-61) at one
pixel: builds a fresh 3-plane stack `(I, Q - pQ·I, U - pU·I)` with
`np.array`, reading but never writing its argument. -/
def instpol_correct (s : Fin 3 → ℝ) (pQ pU : ℝ) : Fin 3 → ℝ :=
  ![s 0, s 1 - pQ * s 0, s 2 - pU * s 0]

/-- A store of numpy arrays: pointers (`ℕ`) to 3-plane pixel stacks.
Python passes arrays by reference, so the wrapper's in-place slice
assignment is modelled as a store update at the argument pointer. -/
def Heap := ℕ → Fin 3 → ℝ

/-- Translation of `polarization_ip_correct` (`pdi/processing.py` lines
426-444) at one pixel: `stokes_data[:3] = instpol_correct(stokes_data[:3],
cQ, cU)` writes the corrected planes back into the argument array, and the
same object (`p`) is returned.  The scalars `cQ`, `cU` come from the
external photometry service (`measure_instpol` / `measure_instpol_ann`,
spec section 6) and are taken as parameters. -/
def polarization_ip_correct (h : Heap) (p : ℕ) (cQ cU : ℝ) : Heap × ℕ :=
  (fun q => if q = p then instpol_correct (h p) cQ cU else h q, p)

/-- Example store used to witness the frame-effect theorem. -/
def exHeap : Heap := fun _ => ![1, 2, 3]

end

/-- One row of the candidate table fed to the Frame-Set Matcher: its key
fields, its timestamp, and its `path`.  The matcher uses timestamps only
through subtraction, absolute value and order comparison, so the fractional
MJD values are modelled as exact integers in arbitrary sub-day units. -/
structure FrameRow (K : Type) where
  key : K
  mjd : ℤ
  path : String

/-- Model of `np.abs` on exact time differences. -/
def qabs (x : ℤ) : ℤ :=
  if x < 0 then -x else x

/-- One step of numpy `argmin` over the masked `deltatime` values in table
order: keep the earlier row on a tie (`argmin` returns the first index
attaining the minimum). -/
def nearestStep {K : Type} (t0 : ℤ) (best : Option (FrameRow K))
    (r : FrameRow K) : Option (FrameRow K) :=
  match best with
  | none => some r
  | some b => if qabs (t0 - r.mjd) < qabs (t0 - b.mjd) then some r else some b

/-- Model of `deltatime[mask].argmin()` over already-masked rows: the first
row minimising `|MJD - anchor MJD|`, or `none` for an empty selection
(where numpy `argmin` raises). -/
def nearestRow {K : Type} (t0 : ℤ) (rows : List (FrameRow K)) :
    Option (FrameRow K) :=
  rows.foldl (nearestStep t0) none

/-- Candidate selection for one key in `get_triplediff_set` /
`get_doublediff_set` (`pdi/processing.py` lines 302-309 and 322-325):
filter the table to the rows bearing the key (the `mask`), then take the
`path` of the row nearest in time to the anchor. -/
def matchKey {K : Type} [DecidableEq K] (table : List (FrameRow K))
    (t0 : ℤ) (k : K) : Option String :=
  (nearestRow t0 (table.filter fun r => decide (r.key = k))).map FrameRow.path

/-- Loop body of the matcher: bind the visited key to its nearest candidate;
an empty candidate selection makes `argmin` raise, modelled by `none`. -/
def diffSetStep {K : Type} [DecidableEq K] (table : List (FrameRow K))
    (t0 : ℤ) (out : K → Option String) (k : K) :
    Option (K → Option String) :=
  match matchKey table t0 k with
  | some p => some (fun k2 => if k2 = k then some p else out k2)
  | none => none

/-- Body of `get_triplediff_set` / `get_doublediff_set`
(`pdi/processing.py` lines 294-327), parametric in the keyspace.
`output_set` starts as the singleton `row_key ↦ row["path"]`; the loop then
walks `remaining_keys = KEYSPACE_SETS - set(row_key)` — and since
`set(row_key)` holds the components of the key tuple (an angle, a state, a
camera), never a full key tuple, the subtraction removes nothing and
`remaining_keys` is the whole keyspace, the anchor's key included.  Every
visited key is therefore (re)bound to its nearest table candidate. -/
def getDiffSet {K : Type} [DecidableEq K] (keys : List K)
    (table : List (FrameRow K)) (row : FrameRow K) :
    Option (K → Option String) :=
  keys.foldlM (diffSetStep table row.mjd)
    (fun k => if k = row.key then some row.path else none)

/-- Translation of `get_triplediff_set` (`pdi/processing.py` 294-311). -/
def get_triplediff_set (table : List (FrameRow Key3))
    (row : FrameRow Key3) : Option (Key3 → Option String) :=
  getDiffSet tripleKeys table row

/-- Translation of `get_doublediff_set` (`pdi/processing.py` 314-327). -/
def get_doublediff_set (table : List (FrameRow Key2))
    (row : FrameRow Key2) : Option (Key2 → Option String) :=
  getDiffSet doubleKeys table row

/-- The value the matcher's result assigns to one key (`none` when the
matcher failed). -/
def atKey {K : Type} (o : Option (K → Option String)) (k : K) :
    Option (Option String) :=
  match o with
  | none => none
  | some f => some (f k)

/-- The matcher's result, if any, fills the given key. -/
def coversKey {K : Type} (o : Option (K → Option String)) (k : K) : Prop :=
  ∀ f ∈ o, (f k).isSome

/-- Anchor key used in the matcher examples. -/
def exAnchorKey : Key3 := (.a0, .A, .c1)

/-- Anchor row used in the matcher examples. -/
def exAnchor : FrameRow Key3 := ⟨exAnchorKey, 5, "anchor"⟩

/-- A competing candidate bearing the anchor's key at the anchor's exact
timestamp, listed before the anchor in the table. -/
def exOther : FrameRow Key3 := ⟨exAnchorKey, 5, "other"⟩

/-- Candidate table for the anchor-overwrite evaluation: the competing
record first, then the anchor itself, then one filler candidate per key. -/
def exTable : List (FrameRow Key3) :=
  exOther :: exAnchor :: tripleKeys.map fun k => ⟨k, 5, "fill"⟩

/-- Anchor rows and a complete table used to witness the completeness
theorem. -/
def exW5Anchor : FrameRow Key3 := ⟨(.a0, .A, .c1), 5, "w5anchor"⟩

/-- Double-difference anchor used to witness the completeness theorem. -/
def exW5Anchor2 : FrameRow Key2 := ⟨(.a0, .c1), 5, "w5anchor2"⟩

/-- A table holding exactly one candidate per triple-difference key. -/
def exGoodTable : List (FrameRow Key3) :=
  tripleKeys.map fun k => ⟨k, 5, "fill"⟩

/-- Message of the `ValueError` raised by
`polarization_calibration_triplediff` on a bad input count
(`pdi/processing.py` lines 45-47). -/
def tripleDiffMsg : String :=
  "Cannot do triple-differential calibration without exact sets of 16 frames for each HWP cycle"

/-- Message of the `ValueError` raised by
`polarization_calibration_doublediff` on a bad input count
(`pdi/processing.py` lines 100-102). -/
def doubleDiffMsg : String :=
  "Cannot do double-differential calibration without exact sets of 8 frames for each HWP cycle"

/-- Input-count guard of `polarization_calibration_triplediff`
(`pdi/processing.py` lines 45-47): the first statement of the function
raises `ValueError(msg)` when the number of filenames is not an exact
multiple of 16, before any frame is read or any output produced. -/
def tripleCountCheck (n : ℕ) : Except String Unit :=
  if n % 16 ≠ 0 then Except.error tripleDiffMsg else Except.ok ()

/-- Input-count guard of `polarization_calibration_doublediff`
(`pdi/processing.py` lines 100-102), with multiple 8. -/
def doubleCountCheck (n : ℕ) : Except String Unit :=
  if n % 8 ≠ 0 then Except.error doubleDiffMsg else Except.ok ()

/-- C1: the triple-difference combiner equals the spec section 4.2
closed-form nested-averaging formula on every complete 16-key FrameSet,
every averaging stage preserved. -/
theorem triple_diff_matches_spec (f : Key3 → ℝ) :
    triple_diff_dict f = specTripleDiff f := by
  simp only [triple_diff_dict, specTripleDiff, Prod.mk.injEq]

/-- C2 counterexample: on the FrameSet in which every frame is the constant
`1.0`, `triple_diff_dict` does not return `I = 2.0`; there is no
beamsplitter factor 2 in this combiner. -/
theorem triple_diff_unit_not_two :
    triple_diff_dict (fun _ => (1 : ℝ)) ≠ ((2 : ℝ), (0 : ℝ), (0 : ℝ)) := by
  have h1 : triple_diff_dict (fun _ => (1 : ℝ)) = (1, 0, 0) := by
    simp only [triple_diff_dict, Prod.mk.injEq]
    norm_num
  rw [h1]
  intro h
  have := congrArg Prod.fst h
  norm_num at this

/-- C2 amended: on the all-ones FrameSet the combiner `triple_diff_dict`
yields `I = 1.0`, `Q = 0.0`, `U = 0.0` at every pixel (full cancellation,
but no beamsplitter factor 2 is applied by this combiner). -/
theorem triple_diff_unit_value :
    triple_diff_dict (fun _ => (1 : ℝ)) = ((1 : ℝ), (0 : ℝ), (0 : ℝ)) := by
  simp only [triple_diff_dict, Prod.mk.injEq]
  norm_num

/-- C3 counterexample: at `I = 0`, `Q = 1`, `U = 0`, `I_err = 0`,
`mQ = (0, 1, 1)`, `mU = (0, 0, 1)` the corrector's output `(Q'', U'')` does
not solve the claimed system `M·[Q''; U''] = [Q'; U']` with
`M = [[mQ[1], mQ[2]], [mU[1], mU[2]]] = [[1, 1], [0, 1]]` (here invertible,
so the least-squares solution is the exact one): the first row gives
`1·Q'' + 1·U'' ≠ Q' = 1`, because the code solves against `Marr.T`, the
transpose of `M`. -/
theorem mm_correct_counterexample :
    ¬ ((1 : ℝ) * (mmCorrectStep 0 1 0 0 ⟨0, 1, 1⟩ ⟨0, 0, 1⟩).1.1
        + (1 : ℝ) * (mmCorrectStep 0 1 0 0 ⟨0, 1, 1⟩ ⟨0, 0, 1⟩).1.2
        = 1 - 0 * 0) := by
  simp only [mmCorrectStep, lstsq2]
  norm_num

/-- C3 amended: the corrector first computes `Q' = Q - mQ[0]·I` and
`U' = U - mU[0]·I`, then obtains `(Q'', U'')` by solving, independently per
pixel, the least-squares system whose coefficient matrix is the TRANSPOSE of
`M = [[mQ[1], mQ[2]], [mU[1], mU[2]]]` (the code calls
`np.linalg.lstsq(Marr.T, Sarr)`), and reports
`Q_err = hypot(I_err, mQ[0]·I_err)` and `U_err = hypot(I_err, mU[0]·I_err)`:
whenever `Mᵗ` is invertible, the output satisfies
`Mᵗ·[Q''; U''] = [Q'; U']`. -/
theorem mm_correct_amended (I Q U Ierr : ℝ) (mQ mU : MRow)
    (h : mQ.e1 * mU.e2 - mU.e1 * mQ.e2 ≠ 0) :
    mQ.e1 * (mmCorrectStep I Q U Ierr mQ mU).1.1
      + mU.e1 * (mmCorrectStep I Q U Ierr mQ mU).1.2 = Q - mQ.e0 * I ∧
    mQ.e2 * (mmCorrectStep I Q U Ierr mQ mU).1.1
      + mU.e2 * (mmCorrectStep I Q U Ierr mQ mU).1.2 = U - mU.e0 * I ∧
    (mmCorrectStep I Q U Ierr mQ mU).2.1 = hypot Ierr (mQ.e0 * Ierr) ∧
    (mmCorrectStep I Q U Ierr mQ mU).2.2 = hypot Ierr (mU.e0 * Ierr) := by
  simp only [mmCorrectStep, lstsq2]
  refine ⟨?_, ?_, True.intro, True.intro⟩ <;> field_simp <;> ring

/-- C3 witness: the amended correction theorem instantiated at
`I = 2`, `Q = 3`, `U = 5`, `I_err = 7`, `mQ = (0, 1, 0)`, `mU = (0, 0, 1)`,
whose crosstalk matrix has determinant 1. -/
theorem mm_correct_amended_witness :
    ((⟨0, 1, 0⟩ : MRow).e1 * (⟨0, 0, 1⟩ : MRow).e2
        - (⟨0, 0, 1⟩ : MRow).e1 * (⟨0, 1, 0⟩ : MRow).e2 ≠ 0) ∧
    ((⟨0, 1, 0⟩ : MRow).e1 * (mmCorrectStep 2 3 5 7 ⟨0, 1, 0⟩ ⟨0, 0, 1⟩).1.1
      + (⟨0, 0, 1⟩ : MRow).e1 * (mmCorrectStep 2 3 5 7 ⟨0, 1, 0⟩ ⟨0, 0, 1⟩).1.2
      = 3 - (⟨0, 1, 0⟩ : MRow).e0 * 2 ∧
    (⟨0, 1, 0⟩ : MRow).e2 * (mmCorrectStep 2 3 5 7 ⟨0, 1, 0⟩ ⟨0, 0, 1⟩).1.1
      + (⟨0, 0, 1⟩ : MRow).e2 * (mmCorrectStep 2 3 5 7 ⟨0, 1, 0⟩ ⟨0, 0, 1⟩).1.2
      = 5 - (⟨0, 0, 1⟩ : MRow).e0 * 2 ∧
    (mmCorrectStep 2 3 5 7 ⟨0, 1, 0⟩ ⟨0, 0, 1⟩).2.1
      = hypot 7 ((⟨0, 1, 0⟩ : MRow).e0 * 7) ∧
    (mmCorrectStep 2 3 5 7 ⟨0, 1, 0⟩ ⟨0, 0, 1⟩).2.2
      = hypot 7 ((⟨0, 0, 1⟩ : MRow).e0 * 7)) :=
  ⟨by norm_num, mm_correct_amended 2 3 5 7 ⟨0, 1, 0⟩ ⟨0, 0, 1⟩ (by norm_num)⟩

/-- Helper: `np.hypot` is symmetric in its two arguments. -/
theorem hypot_comm (x y : ℝ) : hypot x y = hypot y x := by
  unfold hypot
  rw [add_comm]

/-- C7: the product synthesizer `stokes_products` computes exactly the
spec section 4.4 formulas for `Qφ`, `Uφ`, `PI`, `AoLP` (no 1/2 factor) and
their propagated errors, at every pixel. -/
theorem stokes_products_match_spec (I Q U Ierr Qerr Uerr θ φ : ℝ) :
    stokes_products I Q U Ierr Qerr Uerr θ φ
      = specStokesProducts I Q U Ierr Qerr Uerr θ φ := by
  simp only [stokes_products, specStokesProducts, radial_stokes,
    Prod.mk.injEq, SProd.mk.injEq]
  repeat' apply And.intro
  all_goals first
    | trivial
    | ring1
    | rw [hypot_comm (U * Uerr) (Q * Qerr), hypot_comm U Q]
    | rw [hypot_comm U Q]

/-- C8 counterexample: for the Stokes pixel `(Q, U) = (1, 0)` at azimuth
`θ = 0` with offset `φ = 0`, applying `radial_stokes` with angle `φ` and
then `rotate_stokes` with angle `-φ` yields `(Q, U) = (-1, 0)`, not the
original `(1, 0)`: the radial transform is `-R(2θ)` composed with a
rotation, and a global rotation by `-φ` does not undo it. -/
theorem radial_rotate_counterexample :
    rotate_stokes
        (1, (radial_stokes 1 0 0 0 0 0).qphi, (radial_stokes 1 0 0 0 0 0).uphi)
        (-0)
      ≠ ((1 : ℝ), (1 : ℝ), (0 : ℝ)) := by
  simp only [radial_stokes, rotate_stokes]
  norm_num [Real.cos_zero, Real.sin_zero, Prod.mk.injEq]

/-- C8 amended: applying `radial_stokes` with offset angle `φ` and then
rotating the resulting `(Qφ, Uφ)` pair by `+φ` with `rotate_stokes` recovers
the radial-Stokes products at offset 0 (exactly over the reals); the
original `Q`, `U` themselves are not recovered by any global rotation. -/
theorem radial_rotate_amended (I Q U Qerr Uerr θ φ : ℝ) :
    rotate_stokes
        (I, (radial_stokes Q U Qerr Uerr θ φ).qphi,
          (radial_stokes Q U Qerr Uerr θ φ).uphi)
        φ
      = (I, (radial_stokes Q U Qerr Uerr θ 0).qphi,
          (radial_stokes Q U Qerr Uerr θ 0).uphi) := by
  simp only [radial_stokes, rotate_stokes, Prod.mk.injEq]
  have h1 : 2 * (θ + φ) = 2 * θ + 2 * φ := by ring
  have h2 : 2 * (θ + (0 : ℝ)) = 2 * θ := by ring
  rw [h1, h2, Real.cos_add, Real.sin_add]
  repeat' apply And.intro
  all_goals first
    | trivial
    | linear_combination
        (-(Q * Real.cos (2 * θ) + U * Real.sin (2 * θ)))
          * Real.sin_sq_add_cos_sq (2 * φ)
    | linear_combination
        (Q * Real.sin (2 * θ) - U * Real.cos (2 * θ))
          * Real.sin_sq_add_cos_sq (2 * φ)

/-- Helper: the combined error map equals `sqrt(mean(error²))` scaled by
`1/√N` for any list of per-pixel errors. -/
theorem combineErr_rms (l : List ℝ) :
    combineErrMap l
      = Real.sqrt ((l.map fun e => e ^ 2).sum / l.length)
        * (1 / Real.sqrt l.length) := by
  unfold combineErrMap
  have hS : (0 : ℝ) ≤ (l.map fun e => e ^ 2).sum := by
    apply List.sum_nonneg
    intro x hx
    obtain ⟨e, _, rfl⟩ := List.mem_map.mp hx
    exact sq_nonneg e
  have hm : (0 : ℝ) ≤ (l.map fun e => e ^ 2).sum / l.length :=
    div_nonneg hS (Nat.cast_nonneg _)
  rw [Real.sqrt_div hm, div_eq_mul_one_div]

/-- C9: for one calibration cycle, the combined per-pixel error map equals
the RMS-over-set value `sqrt(mean(error²))` scaled by `1/√N`, where the mean
and `N` range over exactly the members of that cycle's frame set: the 16
triple-difference members, or the 8 double-difference members (the function
receives only the one cycle's files from its caller). -/
theorem err_map_rms_over_set (cyc3 : Key3 → ℝ) (cyc2 : Key2 → ℝ) :
    combineErrMap (tripleKeys.map cyc3)
      = Real.sqrt (((tripleKeys.map cyc3).map fun e => e ^ 2).sum / 16)
        * (1 / Real.sqrt 16) ∧
    combineErrMap (doubleKeys.map cyc2)
      = Real.sqrt (((doubleKeys.map cyc2).map fun e => e ^ 2).sum / 8)
        * (1 / Real.sqrt 8) := by
  constructor
  · rw [combineErr_rms]
    norm_num [tripleKeys]
  · rw [combineErr_rms]
    norm_num [doubleKeys]

/-- C10: `instpol_correct` is pure — its result has component 0 equal to
the input `I` plane and its argument is untouched — while the wrapper
`polarization_ip_correct` writes the corrected planes back into its
argument array: the store is updated at the argument pointer (and nowhere
else) and the returned pointer is the argument pointer itself. -/
theorem ip_correct_frame_effects (h : Heap) (p : ℕ) (cQ cU : ℝ) :
    (polarization_ip_correct h p cQ cU).2 = p ∧
    (polarization_ip_correct h p cQ cU).1 p = instpol_correct (h p) cQ cU ∧
    (∀ q : ℕ, q ≠ p → (polarization_ip_correct h p cQ cU).1 q = h q) ∧
    instpol_correct (h p) cQ cU 0 = h p 0 := by
  refine ⟨rfl, by simp [polarization_ip_correct], ?_, ?_⟩
  · intro q hq
    simp [polarization_ip_correct, hq]
  · simp [instpol_correct]

/-- C10 witness: the frame-effect theorem at a concrete store and pointers
0 (argument) and 1 (untouched neighbour). -/
theorem ip_correct_frame_effects_witness :
    (polarization_ip_correct exHeap 0 4 5).2 = 0 ∧
    (polarization_ip_correct exHeap 0 4 5).1 1 = exHeap 1 ∧
    instpol_correct (exHeap 0) 4 5 0 = exHeap 0 0 :=
  ⟨(ip_correct_frame_effects exHeap 0 4 5).1,
    (ip_correct_frame_effects exHeap 0 4 5).2.2.1 1 (by norm_num),
    (ip_correct_frame_effects exHeap 0 4 5).2.2.2⟩

/-- Helper: every triple-difference key is in the keyspace list. -/
theorem mem_tripleKeys (k : Key3) : k ∈ tripleKeys := by
  obtain ⟨a, s, c⟩ := k
  cases a <;> cases s <;> cases c <;> simp [tripleKeys]

/-- Helper: every double-difference key is in the keyspace list. -/
theorem mem_doubleKeys (k : Key2) : k ∈ doubleKeys := by
  obtain ⟨a, c⟩ := k
  cases a <;> cases c <;> simp [doubleKeys]

/-- Helper: the argmin fold started from a row always yields a row. -/
theorem foldl_nearestStep_isSome {K : Type} (t0 : ℤ) :
    ∀ (rows : List (FrameRow K)) (b : FrameRow K),
      (rows.foldl (nearestStep t0) (some b)).isSome := by
  intro rows
  induction rows with
  | nil => intro b; rfl
  | cons r rs ih =>
      intro b
      simp only [List.foldl_cons, nearestStep]
      split
      · exact ih r
      · exact ih b

/-- Helper: the argmin over a masked selection fails exactly on an empty
selection. -/
theorem nearestRow_eq_none_iff {K : Type} (t0 : ℤ)
    (rows : List (FrameRow K)) :
    nearestRow t0 rows = none ↔ rows = [] := by
  cases rows with
  | nil => simp [nearestRow]
  | cons r rs =>
      simp only [nearestRow, List.foldl_cons]
      constructor
      · intro h
        exfalso
        have h2 := foldl_nearestStep_isSome t0 rs r
        rw [show nearestStep t0 none r = some r from rfl] at h
        rw [h] at h2
        simp at h2
      · intro h
        exact absurd h (List.cons_ne_nil r rs)

/-- Helper: key selection fails exactly when the key has no candidates. -/
theorem matchKey_eq_none_iff {K : Type} [DecidableEq K]
    (table : List (FrameRow K)) (t0 : ℤ) (k : K) :
    matchKey table t0 k = none
      ↔ table.filter (fun r => decide (r.key = k)) = [] := by
  unfold matchKey
  rw [Option.map_eq_none']
  exact nearestRow_eq_none_iff t0 _

/-- Helper: the matcher loop fails exactly when some visited key has a
failing selection. -/
theorem foldlM_diffSetStep_none_iff {K : Type} [DecidableEq K]
    (table : List (FrameRow K)) (t0 : ℤ) :
    ∀ (keys : List K) (init : K → Option String),
      keys.foldlM (diffSetStep table t0) init = none
        ↔ ∃ k ∈ keys, matchKey table t0 k = none := by
  intro keys
  induction keys with
  | nil => intro init; simp
  | cons k ks ih =>
      intro init
      simp only [List.foldlM_cons]
      cases hm : matchKey table t0 k with
      | none =>
          have hstep : diffSetStep table t0 init k = none := by
            simp [diffSetStep, hm]
          rw [hstep]
          simp only [Option.bind_eq_bind, Option.none_bind, true_iff]
          exact ⟨k, List.mem_cons_self k ks, hm⟩
      | some p =>
          have hstep : diffSetStep table t0 init k
              = some (fun k2 => if k2 = k then some p else init k2) := by
            simp [diffSetStep, hm]
          rw [hstep]
          simp only [Option.bind_eq_bind, Option.some_bind]
          rw [ih]
          constructor
          · rintro ⟨k1, hk1, hmk⟩
            exact ⟨k1, List.mem_cons_of_mem _ hk1, hmk⟩
          · rintro ⟨k1, hk1, hmk⟩
            rcases List.mem_cons.mp hk1 with h1 | h1
            · subst h1
              rw [hm] at hmk
              cases hmk
            · exact ⟨k1, h1, hmk⟩

/-- Helper: on success the matcher loop has filled every visited key, and
never unfills a key. -/
theorem foldlM_diffSetStep_some {K : Type} [DecidableEq K]
    (table : List (FrameRow K)) (t0 : ℤ) :
    ∀ (keys : List K) (init f : K → Option String),
      keys.foldlM (diffSetStep table t0) init = some f →
      ∀ k : K, ((init k).isSome → (f k).isSome) ∧ (k ∈ keys → (f k).isSome) := by
  intro keys
  induction keys with
  | nil =>
      intro init f hf k
      simp only [List.foldlM_nil, pure, Option.some.injEq] at hf
      subst hf
      exact ⟨fun h => h, fun h => absurd h (List.not_mem_nil k)⟩
  | cons k0 ks ih =>
      intro init f hf k
      simp only [List.foldlM_cons] at hf
      cases hm : matchKey table t0 k0 with
      | none =>
          rw [show diffSetStep table t0 init k0 = none from by
            simp [diffSetStep, hm]] at hf
          simp at hf
      | some p =>
          rw [show diffSetStep table t0 init k0
              = some (fun k2 => if k2 = k0 then some p else init k2) from by
            simp [diffSetStep, hm]] at hf
          simp only [Option.bind_eq_bind, Option.some_bind] at hf
          have h2 := ih _ f hf
          constructor
          · intro hk
            apply (h2 k).1
            by_cases hkk : k = k0 <;> simp [hkk, hk]
          · intro hk
            rcases List.mem_cons.mp hk with h1 | h1
            · subst h1
              apply (h2 k).1
              simp
            · exact (h2 k).2 h1

/-- C4 (evaluating the code at the failing input): for the candidate table
`exTable`, whose first record bears the anchor's key at the anchor's exact
timestamp, the matcher binds the anchor's own key to that first-listed
record, not to the anchor record itself: the buggy
`remaining_keys = TRIPLEDIFF_SETS - set(row_key)` removes nothing, so the
loop overwrites the anchor's pre-filled entry. -/
theorem anchor_key_overwritten :
    atKey (get_triplediff_set exTable exAnchor) exAnchorKey
      = some (some "other") ∧ "other" ≠ "anchor" := by
  constructor
  · decide
  · decide

/-- C5: the Frame-Set Matcher fails exactly when some required key of the
keyspace (all 16 triple-difference keys, or all 8 double-difference keys)
has zero candidate records in the table — the only failure mode in the
model — and on success its result fills every key of the keyspace. -/
theorem matcher_fails_iff_missing_key
    (t3 : List (FrameRow Key3)) (r3 : FrameRow Key3)
    (t2 : List (FrameRow Key2)) (r2 : FrameRow Key2) :
    (get_triplediff_set t3 r3 = none
        ↔ ∃ k ∈ tripleKeys, t3.filter (fun r => decide (r.key = k)) = []) ∧
    (∀ k : Key3, coversKey (get_triplediff_set t3 r3) k) ∧
    (get_doublediff_set t2 r2 = none
        ↔ ∃ k ∈ doubleKeys, t2.filter (fun r => decide (r.key = k)) = []) ∧
    (∀ k : Key2, coversKey (get_doublediff_set t2 r2) k) := by
  refine ⟨?_, ?_, ?_, ?_⟩
  · rw [get_triplediff_set, getDiffSet, foldlM_diffSetStep_none_iff]
    exact exists_congr fun k =>
      and_congr_right fun _ => matchKey_eq_none_iff t3 r3.mjd k
  · intro k f hf
    have h := foldlM_diffSetStep_some t3 r3.mjd tripleKeys _ f
      (Option.mem_def.mp hf)
    exact (h k).2 (mem_tripleKeys k)
  · rw [get_doublediff_set, getDiffSet, foldlM_diffSetStep_none_iff]
    exact exists_congr fun k =>
      and_congr_right fun _ => matchKey_eq_none_iff t2 r2.mjd k
  · intro k f hf
    have h := foldlM_diffSetStep_some t2 r2.mjd doubleKeys _ f
      (Option.mem_def.mp hf)
    exact (h k).2 (mem_doubleKeys k)

/-- C5 witness: on the empty table the matcher fails (every key has zero
candidates), and on a table holding one candidate per key its result fills
the key `(67.5, B, 2)`. -/
theorem matcher_fails_iff_missing_key_witness :
    get_triplediff_set [] exW5Anchor = none ∧
    coversKey (get_triplediff_set exGoodTable exW5Anchor)
      (Ang.a67, FLC.B, Cam.c2) :=
  ⟨(matcher_fails_iff_missing_key [] exW5Anchor [] exW5Anchor2).1.mpr
      ⟨(Ang.a0, FLC.A, Cam.c1), by decide, rfl⟩,
    (matcher_fails_iff_missing_key exGoodTable exW5Anchor [] exW5Anchor2).2.1
      (Ang.a67, FLC.B, Cam.c2)⟩

set_option maxRecDepth 10000 in
/-- C6 counterexample: at input count 17 (not a multiple of 16) the
triple-difference combiner fails with its fixed message, but that message
does not name the count received — the decimal string of 17 is not a
substring of it. -/
theorem count_msg_counterexample :
    tripleCountCheck 17 = Except.error tripleDiffMsg ∧
    ¬ (toString 17).toList <:+: tripleDiffMsg.toList := by
  constructor
  · rfl
  · decide

set_option maxRecDepth 10000 in
/-- C6 amended: for every input count that is not an exact multiple of 16
(triple-difference) or 8 (double-difference), the combiner fails before
producing any output with an error whose fixed message names the required
multiple ("16" resp. "8" occurs in it) but not the count received; exact
multiples pass the check. -/
theorem count_check_amended (n m : ℕ) :
    (n % 16 ≠ 0 → tripleCountCheck n = Except.error tripleDiffMsg) ∧
    (n % 16 = 0 → tripleCountCheck n = Except.ok ()) ∧
    (toString 16).toList <:+: tripleDiffMsg.toList ∧
    (m % 8 ≠ 0 → doubleCountCheck m = Except.error doubleDiffMsg) ∧
    (m % 8 = 0 → doubleCountCheck m = Except.ok ()) ∧
    (toString 8).toList <:+: doubleDiffMsg.toList := by
  refine ⟨?_, ?_, by decide, ?_, ?_, by decide⟩
  · intro h; simp [tripleCountCheck, h]
  · intro h; simp [tripleCountCheck, h]
  · intro h; simp [doubleCountCheck, h]
  · intro h; simp [doubleCountCheck, h]

/-- C6 witness: the amended count-check theorem at counts 17 and 32
(triple) and 9 and 16 (double). -/
theorem count_check_amended_witness :
    tripleCountCheck 17 = Except.error tripleDiffMsg ∧
    tripleCountCheck 32 = Except.ok () ∧
    doubleCountCheck 9 = Except.error doubleDiffMsg ∧
    doubleCountCheck 16 = Except.ok () :=
  ⟨(count_check_amended 17 9).1 (by decide),
    (count_check_amended 32 16).2.1 (by decide),
    (count_check_amended 17 9).2.2.2.1 (by decide),
    (count_check_amended 32 16).2.2.2.2.1 (by decide)⟩

end VampiresDPP
